import Mathlib

/-!
# Verification of the storage-inspector reconciliation layer

Shallow embedding of the data model and operations of `src/popup.js`
(`StorageInspector` class): the JSON minification applied by `saveItem`,
the cookie write construction of `setCookie`, the web-storage mutation
helpers, `loadAllData`, `confirmImport`, and `restoreState`.

The JavaScript builtins `JSON.parse` / `JSON.stringify` are modelled by an
executable JSON parser and serializer over `List Char`.  The model covers
`null`, booleans, integer numbers (fraction and exponent syntax, which the
floating-point builtin also accepts, is outside the model), strings with
backslash escapes, arrays and objects, with the JSON whitespace characters
skipped between tokens exactly as the builtin does.
-/

namespace StorageInspector

/-- The four JSON whitespace characters skipped between tokens. -/
def isWsChar (c : Char) : Bool :=
  c = ' ' || c = '\t' || c = '\n' || c = '\r'

/-- Drop leading JSON whitespace. -/
def skipWs : List Char → List Char
  | [] => []
  | c :: cs => if isWsChar c then skipWs cs else c :: cs

/-- ASCII decimal digit test. -/
def isDigitChar (c : Char) : Bool := '0' ≤ c && c ≤ '9'

/-- Numeric value of a decimal digit character. -/
def digitVal (c : Char) : Nat := c.toNat - 48

/-- The decimal digit character for a value below ten. -/
def natDigitChar (n : Nat) : Char := Char.ofNat (48 + n)

/-- Decode the character following a backslash in a JSON string literal. -/
def unescapeChar (c : Char) : Option Char :=
  if c = '"' then some '"'
  else if c = '\\' then some '\\'
  else if c = '/' then some '/'
  else if c = 'n' then some '\n'
  else if c = 't' then some '\t'
  else if c = 'r' then some '\r'
  else if c = 'b' then some (Char.ofNat 8)
  else if c = 'f' then some (Char.ofNat 12)
  else none

/-- Parse the body of a JSON string literal (the opening quote already
consumed).  The boolean flag records that the previous character was a
backslash, so the next character is decoded as an escape. -/
def parseStringBodyAux : Bool → List Char → Option (List Char × List Char)
  | _, [] => none
  | true, e :: cs =>
    match unescapeChar e with
    | some u =>
      match parseStringBodyAux false cs with
      | some p => some (u :: p.1, p.2)
      | none => none
    | none => none
  | false, c :: cs =>
    if c = '"' then some ([], cs)
    else if c = '\\' then parseStringBodyAux true cs
    else
      match parseStringBodyAux false cs with
      | some p => some (c :: p.1, p.2)
      | none => none

/-- Parse the body of a JSON string literal (the opening quote already
consumed), returning the decoded characters and the input after the
closing quote. -/
def parseStringBody (l : List Char) : Option (List Char × List Char) :=
  parseStringBodyAux false l

/-- Serialize one character of a JSON string body, escaping the quote and
the backslash. -/
def escapeChar (c : Char) : List Char :=
  if c = '"' then ['\\', '"']
  else if c = '\\' then ['\\', '\\']
  else [c]

/-- Serialize a JSON string body. -/
def escapeString : List Char → List Char
  | [] => []
  | c :: cs => escapeChar c ++ escapeString cs

/-- Split a maximal run of leading decimal digits off the input. -/
def takeDigits : List Char → List Char × List Char
  | [] => ([], [])
  | c :: cs =>
    if isDigitChar c then
      let p := takeDigits cs
      (c :: p.1, p.2)
    else ([], c :: cs)

/-- Value of a big-endian digit run. -/
def digitsToNat (ds : List Char) : Nat :=
  ds.foldl (fun acc c => 10 * acc + digitVal c) 0

/-- Parse an unsigned JSON number token: a nonempty digit run without a
leading zero (except for the single digit zero itself). -/
def parseNumToken (l : List Char) : Option (Nat × List Char) :=
  match takeDigits l with
  | ([], _) => none
  | (d :: ds, rest) =>
    if d = '0' ∧ ds ≠ [] then none
    else some (digitsToNat (d :: ds), rest)

/-- Big-endian decimal digits of a natural number, with explicit fuel. -/
def natDigitsAux : Nat → Nat → List Char
  | 0, _ => []
  | fuel + 1, n =>
    if n < 10 then [natDigitChar n]
    else natDigitsAux fuel (n / 10) ++ [natDigitChar (n % 10)]

/-- Big-endian decimal digits of a natural number. -/
def natDigits (n : Nat) : List Char := natDigitsAux (n + 1) n

/-- Decimal representation of an integer, as `JSON.stringify` prints an
integral number. -/
def intChars (n : Int) : List Char :=
  if n < 0 then '-' :: natDigits n.natAbs else natDigits n.natAbs

/-- JSON values, as produced by the `JSON.parse` model.  Numbers are
modelled as integers. -/
inductive Json where
  | null
  | bool (b : Bool)
  | num (n : Int)
  | str (s : List Char)
  | arr (elems : List Json)
  | obj (members : List (List Char × Json))

mutual

/-- Model of `JSON.parse` on one value: parses a JSON value off the front
of the input, returning it together with the unconsumed input.  The fuel
argument bounds recursion depth; `jsonParse` supplies enough for any
input it accepts. -/
def parseVal : Nat → List Char → Option (Json × List Char)
  | 0, _ => none
  | fuel + 1, input =>
    match skipWs input with
    | [] => none
    | c :: rest =>
      if isDigitChar c then
        match parseNumToken (c :: rest) with
        | some (m, r) => some (Json.num ((m : Int)), r)
        | none => none
      else if c = 'n' then
        match rest with
        | 'u' :: 'l' :: 'l' :: r => some (Json.null, r)
        | _ => none
      else if c = 't' then
        match rest with
        | 'r' :: 'u' :: 'e' :: r => some (Json.bool true, r)
        | _ => none
      else if c = 'f' then
        match rest with
        | 'a' :: 'l' :: 's' :: 'e' :: r => some (Json.bool false, r)
        | _ => none
      else if c = '"' then
        match parseStringBody rest with
        | some (s, r) => some (Json.str s, r)
        | none => none
      else if c = '[' then
        match skipWs rest with
        | [] => none
        | c2 :: r2 =>
          if c2 = ']' then some (Json.arr [], r2)
          else
            match parseItems fuel (c2 :: r2) with
            | some (vs, r3) => some (Json.arr vs, r3)
            | none => none
      else if c = '{' then
        match skipWs rest with
        | [] => none
        | c2 :: r2 =>
          if c2 = '}' then some (Json.obj [], r2)
          else
            match parseMembers fuel (c2 :: r2) with
            | some (ms, r3) => some (Json.obj ms, r3)
            | none => none
      else if c = '-' then
        match parseNumToken rest with
        | some (m, r) => some (Json.num (-(m : Int)), r)
        | none => none
      else none

/-- Parse the elements of a nonempty array, including the closing
bracket. -/
def parseItems : Nat → List Char → Option (List Json × List Char)
  | 0, _ => none
  | fuel + 1, input =>
    match parseVal fuel input with
    | some (v, r) =>
      match skipWs r with
      | [] => none
      | c :: r2 =>
        if c = ']' then some ([v], r2)
        else if c = ',' then
          match parseItems fuel r2 with
          | some (vs, r3) => some (v :: vs, r3)
          | none => none
        else none
    | none => none

/-- Parse the members of a nonempty object, including the closing
brace. -/
def parseMembers : Nat → List Char → Option (List (List Char × Json) × List Char)
  | 0, _ => none
  | fuel + 1, input =>
    match skipWs input with
    | [] => none
    | c :: rest =>
      if c = '"' then
        match parseStringBody rest with
        | some (k, r) =>
          match skipWs r with
          | [] => none
          | c2 :: r2 =>
            if c2 = ':' then
              match parseVal fuel r2 with
              | some (v, r3) =>
                match skipWs r3 with
                | [] => none
                | c3 :: r4 =>
                  if c3 = '}' then some ([(k, v)], r4)
                  else if c3 = ',' then
                    match parseMembers fuel r4 with
                    | some (ms, r5) => some ((k, v) :: ms, r5)
                    | none => none
                  else none
              | none => none
            else none
        | none => none
      else none

end

/-- Model of `JSON.parse`: parse a complete value, allowing trailing
whitespace only. -/
def jsonParse (s : String) : Option Json :=
  match parseVal (s.data.length + 1) s.data with
  | some (v, rest) => if skipWs rest = [] then some v else none
  | none => none

mutual

/-- Model of `JSON.stringify` without an indent argument: the canonical
serialization with no whitespace between tokens. -/
def stringifyVal : Json → List Char
  | Json.null => ['n', 'u', 'l', 'l']
  | Json.bool true => ['t', 'r', 'u', 'e']
  | Json.bool false => ['f', 'a', 'l', 's', 'e']
  | Json.num n => intChars n
  | Json.str s => '"' :: (escapeString s ++ ['"'])
  | Json.arr vs => '[' :: (stringifyItems vs ++ [']'])
  | Json.obj ms => '{' :: (stringifyMembers ms ++ ['}'])

/-- Comma-separated serialization of array elements. -/
def stringifyItems : List Json → List Char
  | [] => []
  | [v] => stringifyVal v
  | v :: vs => stringifyVal v ++ ',' :: stringifyItems vs

/-- Comma-separated serialization of object members. -/
def stringifyMembers : List (List Char × Json) → List Char
  | [] => []
  | [(k, v)] => '"' :: (escapeString k ++ '"' :: ':' :: stringifyVal v)
  | (k, v) :: ms =>
    ('"' :: (escapeString k ++ '"' :: ':' :: stringifyVal v)) ++ ',' :: stringifyMembers ms

end

/-- String form of the `JSON.stringify` model. -/
def jsonStringify (v : Json) : String := String.mk (stringifyVal v)

mutual

/-- Parser fuel sufficient for a value (used only in proofs). -/
def jfuel : Json → Nat
  | Json.arr vs => 1 + jfuelItems vs
  | Json.obj ms => 1 + jfuelMembers ms
  | _ => 1

/-- Parser fuel sufficient for array elements. -/
def jfuelItems : List Json → Nat
  | [] => 0
  | v :: vs => 1 + jfuel v + jfuelItems vs

/-- Parser fuel sufficient for object members. -/
def jfuelMembers : List (List Char × Json) → Nat
  | [] => 0
  | (_, v) :: ms => 1 + jfuel v + jfuelMembers ms

end

/-- The input does not begin with a decimal digit (so a number token
ending right before it is maximal).  Used in the parsing lemmas. -/
def noDigitHead : List Char → Prop
  | [] => True
  | c :: _ => isDigitChar c = false

/-- JavaScript classification used by `isJson`: values of `typeof`
"object" other than `null`, i.e. arrays and objects. -/
def isStructuredJson : Json → Bool
  | Json.arr _ => true
  | Json.obj _ => true
  | _ => false

/-- Embedding of `isJson` (popup.js:1078-1086): the string parses and the
result is a non-null object, i.e. an array or an object. -/
def isJson (s : String) : Bool :=
  match jsonParse s with
  | some v => isStructuredJson v
  | none => false

/-- Embedding of the value transformation of `saveItem`
(popup.js:815-821): a value classified by `isJson` is minified by parsing
and re-serializing; every other value is passed through unchanged. -/
def saveItemValue (s : String) : String :=
  if isJson s then
    match jsonParse s with
    | some v => jsonStringify v
    | none => s
  else s

/-- A cookie object: the `data` argument of `setCookie`, an element of
`this.data.cookies`, or an entry of an imported `cookies` array.  `none`
models a JavaScript `undefined` field. -/
structure Cookie where
  name : String
  value : String
  domain : Option String
  path : Option String
  secure : Option Bool
  httpOnly : Option Bool
  sameSite : Option String
  expirationDate : Option Int

/-- The write request `setCookie` hands to `chrome.cookies.set`.  `domain`
and `expirationDate` stay absent unless explicitly added. -/
structure CookieWrite where
  url : String
  name : String
  value : String
  path : String
  secure : Bool
  httpOnly : Bool
  sameSite : String
  domain : Option String
  expirationDate : Option Int

/-- JavaScript `x || d` for an optional string field: the default replaces
both an absent and an empty string. -/
def strOrDefault (x : Option String) (d : String) : String :=
  match x with
  | some s => if s = "" then d else s
  | none => d

/-- `domain.startsWith('.') ? domain.substring(1) : domain` — strip one
leading dot. -/
def stripLeadingDot (s : String) : String :=
  match s.data with
  | '.' :: rest => String.mk rest
  | _ => s

/-- Embedding of `setCookie` (popup.js:359-392): builds the write request
with `path` defaulting to "/", `secure`/`httpOnly` to `false` and
`sameSite` to "lax"; a truthy domain is normalized by stripping one
leading dot and is included only when it differs from the context
hostname; `expirationDate` is included only when truthy. -/
def setCookieWrite (hostname origin : String) (data : Cookie) : CookieWrite :=
  { url := origin
    name := data.name
    value := data.value
    path := strOrDefault data.path "/"
    secure := data.secure.getD false
    httpOnly := data.httpOnly.getD false
    sameSite := strOrDefault data.sameSite "lax"
    domain :=
      match data.domain with
      | some dom =>
        if dom = "" then none
        else
          let d := stripLeadingDot dom
          if d = hostname then none else some d
      | none => none
    expirationDate :=
      match data.expirationDate with
      | some e => if e = 0 then none else some e
      | none => none }

/-- A web-storage object (`this.data.localStorage` or
`this.data.sessionStorage`) as an association list in insertion order. -/
abbrev KVMap := List (String × String)

/-- JS property read `m[k]`. -/
def kvGet : KVMap → String → Option String
  | [], _ => none
  | p :: m, k => if p.1 = k then some p.2 else kvGet m k

/-- JS assignment `m[k] = v`: overwrite in place or append. -/
def kvSet : KVMap → String → String → KVMap
  | [], k, v => [(k, v)]
  | p :: m, k, v => if p.1 = k then (k, v) :: m else p :: kvSet m k v

/-- JS `delete m[k]`. -/
def kvRemove : KVMap → String → KVMap
  | [], _ => []
  | p :: m, k => if p.1 = k then kvRemove m k else p :: kvRemove m k

/-- Embedding of `setWebStorageItem` (popup.js:325-340).  `ok` is whether
the `chrome.scripting.executeScript` call succeeds; a failure is caught
before the mirror assignment, so the mirror is updated only on success. -/
def setWebStorageItem (ok : Bool) (mirror : KVMap) (k v : String) : Bool × KVMap :=
  if ok then (true, kvSet mirror k v) else (false, mirror)

/-- Embedding of `removeWebStorageItem` (popup.js:342-357): the mirror
entry is deleted only after the store call succeeds. -/
def removeWebStorageItem (ok : Bool) (mirror : KVMap) (k : String) : Bool × KVMap :=
  if ok then (true, kvRemove mirror k) else (false, mirror)

/-- Result of one underlying store load: the collection, or the error the
call threw. -/
def loadResult {α : Type} (fallback : α) : Except String α → α
  | Except.ok d => d
  | Except.error _ => fallback

/-- The three collections of `this.data`. -/
structure MirrorData where
  localStorage : KVMap
  sessionStorage : KVMap
  cookies : List Cookie

/-- Embedding of `loadAllData` with the catch blocks of `loadWebStorage`
and `loadCookies` (popup.js:267-311): the three loads settle
independently and a load that throws degrades its own collection to
empty. -/
def loadAllData (rLocal rSession : Except String KVMap)
    (rCookies : Except String (List Cookie)) : MirrorData :=
  { localStorage := loadResult [] rLocal
    sessionStorage := loadResult [] rSession
    cookies := loadResult [] rCookies }

/-- One adapter call issued by `confirmImport`, in program order. -/
inductive ImportOp where
  | removeKV (kind : String) (key : String)
  | setKV (kind : String) (key value : String)
  | removeCookie (name : String)
  | setCookie (c : Cookie)

/-- Running state of one key-value block of `confirmImport`: the mirror,
the underlying browser store, the adapter calls issued so far, and the
running `count`. -/
structure KindRun where
  mirror : KVMap
  store : KVMap
  ops : List ImportOp
  count : Nat

/-- Replace-mode delete loop of `confirmImport` for one key-value kind:
every key of the mirror snapshot is removed via the adapter one at a
time; a failed remove (`okRemove k = false`) changes nothing and does not
stop the loop. -/
def importDeletes (kind : String) (okRemove : String → Bool) :
    List String → KindRun → KindRun
  | [], st => st
  | k :: ks, st =>
    importDeletes kind okRemove ks
      { mirror := (removeWebStorageItem (okRemove k) st.mirror k).2
        store := if okRemove k then kvRemove st.store k else st.store
        ops := st.ops ++ [ImportOp.removeKV kind k]
        count := st.count }

/-- Write loop of `confirmImport` for one key-value kind: every imported
entry is written via the adapter and `count` is incremented afterwards —
the boolean result of `setWebStorageItem` is not inspected. -/
def importWrites (kind : String) (okSet : String → String → Bool) :
    List (String × String) → KindRun → KindRun
  | [], st => st
  | (k, v) :: rest, st =>
    importWrites kind okSet rest
      { mirror := (setWebStorageItem (okSet k v) st.mirror k v).2
        store := if okSet k v then kvSet st.store k v else st.store
        ops := st.ops ++ [ImportOp.setKV kind k v]
        count := st.count + 1 }

/-- Embedding of one key-value block of `confirmImport`
(popup.js:1004-1028): when merge is unchecked every key of the current
mirror is deleted first, then all imported entries are written in
order. -/
def importKVKind (kind : String) (merge : Bool) (okRemove : String → Bool)
    (okSet : String → String → Bool) (imp : List (String × String)) (st : KindRun) : KindRun :=
  importWrites kind okSet imp
    (if merge then st else importDeletes kind okRemove (st.mirror.map Prod.fst) st)

/-- Cookie block of `confirmImport` (popup.js:1031-1041), tracked as the
adapter calls issued and the `count` increments: in replace mode every
mirrored cookie is removed by name first; every imported cookie is then
written and counted, the `setCookie` result being ignored. -/
def importCookieDeletes : List String → List ImportOp → List ImportOp
  | [], ops => ops
  | nm :: rest, ops => importCookieDeletes rest (ops ++ [ImportOp.removeCookie nm])

/-- Cookie write loop: one `setCookie` call and one `count++` per imported
cookie. -/
def importCookieWrites : List Cookie → List ImportOp × Nat → List ImportOp × Nat
  | [], st => st
  | c :: rest, st => importCookieWrites rest (st.1 ++ [ImportOp.setCookie c], st.2 + 1)

/-- Embedding of the whole cookie block of `confirmImport`
(popup.js:1031-1041), tracked as the adapter calls issued and the running
`count`: when merge is unchecked every cookie of the current mirror is
first removed by name via the adapter, one at a time; every imported
cookie is then written via `setCookie` and counted. -/
def importCookieKind (merge : Bool) (mirrorCookies : List Cookie) (imp : List Cookie)
    (st : List ImportOp × Nat) : List ImportOp × Nat :=
  importCookieWrites imp
    (if merge then st
      else (importCookieDeletes (mirrorCookies.map Cookie.name) st.1, st.2))

/-- The bulk-import payload: the three optional fields that
`confirmImport` reads from the parsed JSON text. -/
structure ImportPayload where
  localStorage : Option (List (String × String))
  sessionStorage : Option (List (String × String))
  cookies : Option (List Cookie)

/-- The total `count` reported by `confirmImport` (popup.js:985-1046) in
the "Imported N items" toast, assembled from the three per-kind runs. -/
def confirmImportCount (merge : Bool)
    (okRemoveL okRemoveS : String → Bool) (okSetL okSetS : String → String → Bool)
    (mirror : MirrorData) (payload : ImportPayload) : Nat :=
  let c1 := match payload.localStorage with
    | some imp => (importKVKind "localStorage" merge okRemoveL okSetL imp
        { mirror := mirror.localStorage, store := mirror.localStorage,
          ops := [], count := 0 }).count
    | none => 0
  let c2 := match payload.sessionStorage with
    | some imp => (importKVKind "sessionStorage" merge okRemoveS okSetS imp
        { mirror := mirror.sessionStorage, store := mirror.sessionStorage,
          ops := [], count := 0 }).count
    | none => 0
  let c3 := match payload.cookies with
    | some imp => (importCookieWrites imp
        ((if merge then [] else importCookieDeletes (mirror.cookies.map Cookie.name) []), 0)).2
    | none => 0
  c1 + c2 + c3

/-- The value bound to a key after a sequence of JS assignments applied
left to right: the last binding in the list wins.  Used to state the
overlay semantics of import. -/
def lookupLast : List (String × String) → String → Option String
  | [], _ => none
  | p :: rest, q =>
    match lookupLast rest q with
    | some v => some v
    | none => if p.1 = q then some p.2 else none

/-- Number of entries of an optional import field (0 when the field is
absent). -/
def fieldLen {α : Type} : Option (List α) → Nat
  | none => 0
  | some l => l.length

/-- The snapshot written by `saveState` (popup.js:64-78).  `lastSaved` is
`Date.now()` in milliseconds; `theme` may be absent because
`getAttribute` can return null. -/
structure InspectorState where
  currentTab : String
  searchQuery : String
  theme : Option String
  lastSaved : Int

/-- The parts of the popup UI that `restoreState` can change: active
category tab, search text, theme. -/
structure UIView where
  currentTab : String
  searchQuery : String
  theme : String

/-- Embedding of `restoreState` (popup.js:80-113): the snapshot is applied
only when it exists, has a truthy `lastSaved`, and was saved within the
last hour (`state.lastSaved > Date.now() - 3600000`); on application
`currentTab` falls back to "localStorage" when falsy and the theme is only
overwritten when truthy. -/
def restoreState (stored : Option InspectorState) (now : Int) (ui : UIView) : UIView :=
  match stored with
  | none => ui
  | some s =>
    if s.lastSaved ≠ 0 ∧ s.lastSaved > now - 3600000 then
      { currentTab := if s.currentTab = "" then "localStorage" else s.currentTab
        searchQuery := s.searchQuery
        theme :=
          match s.theme with
          | some t => if t = "" then ui.theme else t
          | none => ui.theme }
    else ui

/-! ## Lemmas about the association-list store operations -/

theorem kvGet_kvSet (m : KVMap) (k v q : String) :
    kvGet (kvSet m k v) q = if q = k then some v else kvGet m q := by
  induction m with
  | nil =>
    by_cases h : q = k
    · simp [kvSet, kvGet, h]
    · simp [kvSet, kvGet, h, Ne.symm h]
  | cons p m ih =>
    by_cases h1 : p.1 = k
    · subst h1
      by_cases h2 : q = p.1
      · subst h2; simp [kvSet, kvGet]
      · simp [kvSet, kvGet, h2, Ne.symm h2]
    · by_cases h2 : p.1 = q
      · subst h2
        simp [kvSet, kvGet, h1]
      · simp [kvSet, kvGet, h1, h2, ih]

theorem kvGet_kvRemove (m : KVMap) (k q : String) :
    kvGet (kvRemove m k) q = if q = k then none else kvGet m q := by
  induction m with
  | nil => simp [kvRemove, kvGet]
  | cons p m ih =>
    by_cases h1 : p.1 = k
    · subst h1
      by_cases h2 : q = p.1
      · subst h2; simp [kvRemove, kvGet, ih]
      · simp [kvRemove, kvGet, h2, Ne.symm h2, ih]
    · by_cases h2 : p.1 = q
      · subst h2
        simp [kvRemove, kvGet, h1]
      · simp [kvRemove, kvGet, h1, h2, ih]

theorem kvGet_none_of_not_mem (m : KVMap) (q : String)
    (h : q ∉ m.map Prod.fst) : kvGet m q = none := by
  induction m with
  | nil => simp [kvGet]
  | cons p m ih =>
    simp only [List.map_cons, List.mem_cons] at h
    push_neg at h
    simp [kvGet, Ne.symm h.1, ih h.2]

/-! ## Claim theorems: cookies, loads, mutations, restore -/

/-- C2: in the write request built by `setCookie`, a truthy supplied
domain is omitted exactly when it equals the context hostname after one
leading dot is stripped, and is otherwise included in stripped form.  (An
absent or empty-string domain is falsy in `if (data.domain)` and is
likewise omitted.) -/
theorem setCookie_domain_write (hostname origin : String) (data : Cookie)
    (dom : String) (hdom : data.domain = some dom) (hne : dom ≠ "") :
    ((stripLeadingDot dom = hostname →
        (setCookieWrite hostname origin data).domain = none) ∧
      (stripLeadingDot dom ≠ hostname →
        (setCookieWrite hostname origin data).domain = some (stripLeadingDot dom))) := by
  constructor <;> intro h <;> simp [setCookieWrite, hdom, hne, h]

theorem setCookie_domain_write_witness :
    (setCookieWrite "example.com" "https://example.com"
      { name := "sid", value := "1", domain := some ".example.com", path := none,
        secure := none, httpOnly := none, sameSite := none,
        expirationDate := none }).domain = none ∧
    (setCookieWrite "other.com" "https://other.com"
      { name := "sid", value := "1", domain := some ".example.com", path := none,
        secure := none, httpOnly := none, sameSite := none,
        expirationDate := none }).domain = some "example.com" := by
  constructor
  · exact (setCookie_domain_write "example.com" "https://example.com" _ ".example.com"
      rfl (by decide)).1 (by decide)
  · exact (setCookie_domain_write "other.com" "https://other.com" _ ".example.com"
      rfl (by decide)).2 (by decide)

/-- C3: defaults in the write request built by `setCookie`: `path`
defaults to "/" when absent or empty, `secure` and `httpOnly` default to
`false` when unset, and `sameSite` defaults to "lax" when unset. -/
theorem setCookie_attribute_defaults (hostname origin : String) (data : Cookie) :
    ((data.path = none ∨ data.path = some "" →
        (setCookieWrite hostname origin data).path = "/") ∧
      (data.secure = none → (setCookieWrite hostname origin data).secure = false) ∧
      (data.httpOnly = none → (setCookieWrite hostname origin data).httpOnly = false) ∧
      (data.sameSite = none → (setCookieWrite hostname origin data).sameSite = "lax")) := by
  refine ⟨?_, ?_, ?_, ?_⟩
  · rintro (h | h) <;> simp [setCookieWrite, strOrDefault, h]
  · intro h; simp [setCookieWrite, h]
  · intro h; simp [setCookieWrite, h]
  · intro h; simp [setCookieWrite, strOrDefault, h]

theorem setCookie_attribute_defaults_witness :
    (setCookieWrite "example.com" "https://example.com"
      { name := "c", value := "v", domain := some ".example.com", path := some "",
        secure := none, httpOnly := none, sameSite := none,
        expirationDate := none }).path = "/" ∧
    (setCookieWrite "example.com" "https://example.com"
      { name := "c", value := "v", domain := some ".example.com", path := some "",
        secure := none, httpOnly := none, sameSite := none,
        expirationDate := none }).httpOnly = false ∧
    (setCookieWrite "example.com" "https://example.com"
      { name := "c", value := "v", domain := some ".example.com", path := some "",
        secure := none, httpOnly := none, sameSite := none,
        expirationDate := none }).sameSite = "lax" := by
  refine ⟨?_, ?_, ?_⟩
  · exact (setCookie_attribute_defaults "example.com" "https://example.com" _).1 (Or.inr rfl)
  · exact (setCookie_attribute_defaults "example.com" "https://example.com" _).2.2.1 rfl
  · exact (setCookie_attribute_defaults "example.com" "https://example.com" _).2.2.2 rfl

/-- C10: `setCookie` forwards `expirationDate` only when it is truthy: an
absent value and the number 0 are both dropped from the write request
(producing a session-lifetime cookie), any nonzero value is included. -/
theorem setCookie_expiration_truthy (hostname origin : String) (data : Cookie) :
    ((data.expirationDate = none →
        (setCookieWrite hostname origin data).expirationDate = none) ∧
      (data.expirationDate = some 0 →
        (setCookieWrite hostname origin data).expirationDate = none) ∧
      (∀ e : Int, data.expirationDate = some e → e ≠ 0 →
        (setCookieWrite hostname origin data).expirationDate = some e)) := by
  refine ⟨?_, ?_, ?_⟩
  · intro h; simp [setCookieWrite, h]
  · intro h; simp [setCookieWrite, h]
  · intro e h hne; simp [setCookieWrite, h, hne]

theorem setCookie_expiration_truthy_witness :
    (setCookieWrite "example.com" "https://example.com"
      { name := "c", value := "v", domain := none, path := none, secure := none,
        httpOnly := none, sameSite := none,
        expirationDate := some 0 }).expirationDate = none ∧
    (setCookieWrite "example.com" "https://example.com"
      { name := "c", value := "v", domain := none, path := none, secure := none,
        httpOnly := none, sameSite := none,
        expirationDate := some 1700000000 }).expirationDate = some 1700000000 := by
  constructor
  · exact (setCookie_expiration_truthy "example.com" "https://example.com" _).2.1 rfl
  · exact (setCookie_expiration_truthy "example.com" "https://example.com" _).2.2
      1700000000 rfl (by decide)

/-- C6: in `loadAllData` each of the three loads degrades only its own
collection: when exactly one load throws, that collection becomes empty
and the other two receive their loaded data unchanged; the function is
total, so a load failure never prevents completion. -/
theorem loadAllData_isolates_failures (dl ds : KVMap) (dc : List Cookie) (e : String) :
    (loadAllData (Except.error e) (Except.ok ds) (Except.ok dc) =
        { localStorage := [], sessionStorage := ds, cookies := dc } ∧
      loadAllData (Except.ok dl) (Except.error e) (Except.ok dc) =
        { localStorage := dl, sessionStorage := [], cookies := dc } ∧
      loadAllData (Except.ok dl) (Except.ok ds) (Except.error e) =
        { localStorage := dl, sessionStorage := ds, cookies := [] }) :=
  ⟨rfl, rfl, rfl⟩

/-- C7: `setWebStorageItem` and `removeWebStorageItem` return a boolean;
on failure the mirror is returned unchanged, and on success the mirror
reflects exactly the single upsert or eviction of the given key. -/
theorem mutation_boolean_mirror (mirror : KVMap) (k v : String) :
    (setWebStorageItem false mirror k v = (false, mirror) ∧
      removeWebStorageItem false mirror k = (false, mirror) ∧
      setWebStorageItem true mirror k v = (true, kvSet mirror k v) ∧
      removeWebStorageItem true mirror k = (true, kvRemove mirror k) ∧
      (∀ q, kvGet (kvSet mirror k v) q = if q = k then some v else kvGet mirror q) ∧
      (∀ q, kvGet (kvRemove mirror k) q = if q = k then none else kvGet mirror q)) :=
  ⟨rfl, rfl, rfl, rfl, fun q => kvGet_kvSet mirror k v q, fun q => kvGet_kvRemove mirror k q⟩

/-- C8: `restoreState` applies the stored snapshot exactly when it exists
and was saved within the last hour: an absent snapshot or one at least an
hour old (such as one saved two hours before startup) leaves the UI
defaults untouched; a fresh snapshot (such as one saved ten minutes
before startup) is applied exactly — category, search text and theme. -/
theorem restoreState_freshness (stored : Option InspectorState) (now : Int) (ui : UIView) :
    ((stored = none → restoreState stored now ui = ui) ∧
      (∀ s, stored = some s → s.lastSaved + 3600000 ≤ now →
        restoreState stored now ui = ui) ∧
      (∀ s t, stored = some s → s.lastSaved ≠ 0 → now - 3600000 < s.lastSaved →
        s.currentTab ≠ "" → s.theme = some t → t ≠ "" →
        restoreState stored now ui =
          { currentTab := s.currentTab, searchQuery := s.searchQuery, theme := t })) := by
  refine ⟨?_, ?_, ?_⟩
  · intro h; simp [h, restoreState]
  · intro s hs hold
    subst hs
    simp only [restoreState]
    rw [if_neg]
    rintro ⟨-, h2⟩
    omega
  · intro s t hs h0 hfresh htab hth htne
    subst hs
    simp only [restoreState]
    rw [if_pos ⟨h0, by omega⟩]
    simp [htab, hth, htne]

theorem restoreState_freshness_witness :
    restoreState (some ⟨"cookies", "tok", some "light", 2800000⟩) 10000000
      ⟨"localStorage", "", "dark"⟩ = ⟨"localStorage", "", "dark"⟩ ∧
    restoreState (some ⟨"cookies", "tok", some "light", 9400000⟩) 10000000
      ⟨"localStorage", "", "dark"⟩ = ⟨"cookies", "tok", "light"⟩ := by
  constructor
  · exact (restoreState_freshness _ 10000000 _).2.1 _ rfl (by decide)
  · exact (restoreState_freshness _ 10000000 _).2.2 _ "light" rfl (by decide) (by decide)
      (by decide) rfl (by decide)

/-! ## Lemmas about the bulk-import loops -/

theorem importWrites_ops_count (kind : String) (okSet : String → String → Bool)
    (imp : List (String × String)) (st : KindRun) :
    (importWrites kind okSet imp st).ops =
      st.ops ++ imp.map (fun p => ImportOp.setKV kind p.1 p.2) ∧
    (importWrites kind okSet imp st).count = st.count + imp.length := by
  induction imp generalizing st with
  | nil => simp [importWrites]
  | cons p rest ih =>
    obtain ⟨k, v⟩ := p
    constructor
    · simp only [importWrites]
      rw [(ih _).1]
      simp
    · simp only [importWrites]
      rw [(ih _).2]
      simp only [List.length_cons]
      omega

theorem importDeletes_ops_count (kind : String) (okRemove : String → Bool)
    (ks : List String) (st : KindRun) :
    (importDeletes kind okRemove ks st).ops =
      st.ops ++ ks.map (fun k => ImportOp.removeKV kind k) ∧
    (importDeletes kind okRemove ks st).count = st.count := by
  induction ks generalizing st with
  | nil => simp [importDeletes]
  | cons k ks ih =>
    constructor
    · simp only [importDeletes]
      rw [(ih _).1]
      simp
    · simp only [importDeletes]
      rw [(ih _).2]

theorem importDeletes_store_get (kind : String) (ks : List String) (st : KindRun)
    (q : String) :
    kvGet ((importDeletes kind (fun _ => true) ks st).store) q =
      if q ∈ ks then none else kvGet st.store q := by
  induction ks generalizing st with
  | nil => simp [importDeletes]
  | cons k ks ih =>
    simp only [importDeletes]
    rw [ih]
    by_cases hk : q = k
    · simp [hk, kvGet_kvRemove]
    · by_cases hks : q ∈ ks <;> simp [hk, hks, kvGet_kvRemove]

theorem importWrites_store_get (kind : String) (imp : List (String × String))
    (st : KindRun) (q : String) :
    kvGet ((importWrites kind (fun _ _ => true) imp st).store) q =
      (match lookupLast imp q with
        | some v => some v
        | none => kvGet st.store q) := by
  induction imp generalizing st with
  | nil => simp [importWrites, lookupLast]
  | cons p rest ih =>
    obtain ⟨k, v⟩ := p
    simp only [importWrites]
    rw [ih]
    cases hl : lookupLast rest q with
    | some w => simp [lookupLast, hl]
    | none =>
      by_cases hk : q = k
      · subst hk
        simp [lookupLast, hl, kvGet_kvSet]
      · simp [lookupLast, hl, hk, Ne.symm hk, kvGet_kvSet]

theorem importKVKind_true (kind : String) (okRemove : String → Bool)
    (okSet : String → String → Bool) (imp : List (String × String)) (st : KindRun) :
    importKVKind kind true okRemove okSet imp st = importWrites kind okSet imp st := rfl

theorem importKVKind_false (kind : String) (okRemove : String → Bool)
    (okSet : String → String → Bool) (imp : List (String × String)) (st : KindRun) :
    importKVKind kind false okRemove okSet imp st =
      importWrites kind okSet imp
        (importDeletes kind okRemove (st.mirror.map Prod.fst) st) := rfl

theorem importKVKind_count (kind : String) (merge : Bool) (okRemove : String → Bool)
    (okSet : String → String → Bool) (imp : List (String × String)) (st : KindRun) :
    (importKVKind kind merge okRemove okSet imp st).count = st.count + imp.length := by
  cases merge
  · rw [importKVKind_false, (importWrites_ops_count kind okSet imp _).2,
      (importDeletes_ops_count kind okRemove _ st).2]
  · rw [importKVKind_true, (importWrites_ops_count kind okSet imp _).2]

theorem importCookieWrites_count (imp : List Cookie) (st : List ImportOp × Nat) :
    (importCookieWrites imp st).2 = st.2 + imp.length := by
  induction imp generalizing st with
  | nil => simp [importCookieWrites]
  | cons c rest ih =>
    simp only [importCookieWrites]
    rw [ih]
    simp only [List.length_cons]
    omega

theorem importCookieWrites_ops (imp : List Cookie) (st : List ImportOp × Nat) :
    (importCookieWrites imp st).1 = st.1 ++ imp.map ImportOp.setCookie := by
  induction imp generalizing st with
  | nil => simp [importCookieWrites]
  | cons c rest ih =>
    simp only [importCookieWrites]
    rw [ih]
    simp

theorem importCookieDeletes_ops (names : List String) (ops : List ImportOp) :
    importCookieDeletes names ops = ops ++ names.map ImportOp.removeCookie := by
  induction names generalizing ops with
  | nil => simp [importCookieDeletes]
  | cons nm rest ih =>
    simp only [importCookieDeletes]
    rw [ih]
    simp

theorem importCookieKind_true (mirrorCookies imp : List Cookie) (st : List ImportOp × Nat) :
    importCookieKind true mirrorCookies imp st = importCookieWrites imp st := rfl

theorem importCookieKind_false (mirrorCookies imp : List Cookie) (st : List ImportOp × Nat) :
    importCookieKind false mirrorCookies imp st =
      importCookieWrites imp
        (importCookieDeletes (mirrorCookies.map Cookie.name) st.1, st.2) := rfl

/-! ## Claim theorems: bulk import -/

/-- C4: for each present field of `confirmImport`: in merge mode the
adapter calls are exactly the writes of the imported entries (no
deletion); in replace mode every mirrored entry of that kind is deleted
via the adapter before any imported entry is written.  For the two
key-value kinds additionally, with a succeeding adapter, merge overlays
the imported entries onto the existing store while replace leaves exactly
the imported entries; in particular importing `b ↦ 2` over a store
`a ↦ 1` yields `a ↦ 1, b ↦ 2` in merge mode and `b ↦ 2` in replace mode.
For the cookies field (popup.js:1031-1041) the last two conjuncts state
the same loop structure: merge issues only the `setCookie` calls, replace
first removes every mirrored cookie by name, one at a time, before any
`setCookie` call. -/
theorem confirmImport_replace_merge (kind : String) (okRemove : String → Bool)
    (okSet : String → String → Bool) (imp : List (String × String)) (st : KindRun) :
    ((importKVKind kind true okRemove okSet imp st).ops =
        st.ops ++ imp.map (fun p => ImportOp.setKV kind p.1 p.2) ∧
      (importKVKind kind false okRemove okSet imp st).ops =
        st.ops ++ st.mirror.map (fun p => ImportOp.removeKV kind p.1) ++
          imp.map (fun p => ImportOp.setKV kind p.1 p.2) ∧
      (∀ mirror q, kvGet ((importKVKind kind true (fun _ => true) (fun _ _ => true) imp
          ⟨mirror, mirror, [], 0⟩).store) q =
        (match lookupLast imp q with
          | some v => some v
          | none => kvGet mirror q)) ∧
      (∀ mirror q, kvGet ((importKVKind kind false (fun _ => true) (fun _ _ => true) imp
          ⟨mirror, mirror, [], 0⟩).store) q = lookupLast imp q) ∧
      (importKVKind kind true (fun _ => true) (fun _ _ => true) [("b", "2")]
          ⟨[("a", "1")], [("a", "1")], [], 0⟩).store = [("a", "1"), ("b", "2")] ∧
      (importKVKind kind false (fun _ => true) (fun _ _ => true) [("b", "2")]
          ⟨[("a", "1")], [("a", "1")], [], 0⟩).store = [("b", "2")] ∧
      (∀ (mc cimp : List Cookie) (cst : List ImportOp × Nat),
        (importCookieKind true mc cimp cst).1 =
          cst.1 ++ cimp.map ImportOp.setCookie) ∧
      (∀ (mc cimp : List Cookie) (cst : List ImportOp × Nat),
        (importCookieKind false mc cimp cst).1 =
          cst.1 ++ mc.map (fun c => ImportOp.removeCookie c.name) ++
            cimp.map ImportOp.setCookie)) := by
  refine ⟨?_, ?_, ?_, ?_, rfl, rfl, ?_, ?_⟩
  · rw [importKVKind_true]
    exact (importWrites_ops_count kind okSet imp st).1
  · rw [importKVKind_false, (importWrites_ops_count kind okSet imp _).1,
      (importDeletes_ops_count kind okRemove _ st).1]
    simp [List.map_map, Function.comp]
  · intro mirror q
    rw [importKVKind_true, importWrites_store_get]
  · intro mirror q
    rw [importKVKind_false, importWrites_store_get]
    cases hl : lookupLast imp q with
    | some w => rfl
    | none =>
      have hd := importDeletes_store_get kind (mirror.map Prod.fst)
        ⟨mirror, mirror, [], 0⟩ q
      by_cases hq : q ∈ mirror.map Prod.fst
      · simp [hd, hq]
      · simp [hd, hq, kvGet_none_of_not_mem mirror q hq]
  · intro mc cimp cst
    rw [importCookieKind_true, importCookieWrites_ops]
  · intro mc cimp cst
    rw [importCookieKind_false, importCookieWrites_ops, importCookieDeletes_ops]
    simp [List.map_map, Function.comp]

/-- C5 (corrected claim): the count `confirmImport` reports in the
"Imported N items" toast is the number of entries present in the import
payload — every per-item adapter call is followed by an unconditional
`count++`, so the reported total is the attempted count, independent of
which writes succeeded. -/
theorem confirmImport_count_attempted (merge : Bool) (okRemoveL okRemoveS : String → Bool)
    (okSetL okSetS : String → String → Bool) (mirror : MirrorData)
    (payload : ImportPayload) :
    confirmImportCount merge okRemoveL okRemoveS okSetL okSetS mirror payload =
      fieldLen payload.localStorage + fieldLen payload.sessionStorage +
        fieldLen payload.cookies := by
  unfold confirmImportCount
  cases payload.localStorage <;> cases payload.sessionStorage <;> cases payload.cookies <;>
    simp [fieldLen, importKVKind_count, importCookieWrites_count]

/-- C5 counterexample: importing the single entry `a ↦ 1` with an adapter
whose every write fails reports "Imported 1 items" although zero items
were applied (the store is unchanged), refuting the claim that the
reported count equals the number of successful writes. -/
theorem confirmImport_count_counterexample :
    confirmImportCount true (fun _ => true) (fun _ => true) (fun _ _ => false)
      (fun _ _ => true) ⟨[], [], []⟩ ⟨some [("a", "1")], none, none⟩ = 1 ∧
    (importKVKind "localStorage" true (fun _ => true) (fun _ _ => false) [("a", "1")]
      ⟨[], [], [], 0⟩).store = [] :=
  ⟨rfl, rfl⟩

/-! ## Lemmas about the JSON model: characters, digits, strings -/

theorem skipWs_cons (c : Char) (l : List Char) (h : isWsChar c = false) :
    skipWs (c :: l) = c :: l := by
  simp [skipWs, h]

theorem digit_facts {c : Char} (h : isDigitChar c = true) :
    isWsChar c = false ∧ c ≠ 'n' ∧ c ≠ 't' ∧ c ≠ 'f' ∧ c ≠ '"' ∧ c ≠ '[' ∧
      c ≠ '{' ∧ c ≠ '-' ∧ c ≠ ']' ∧ c ≠ ',' ∧ c ≠ '}' ∧ c ≠ ':' := by
  refine ⟨?_, ?_, ?_, ?_, ?_, ?_, ?_, ?_, ?_, ?_, ?_, ?_⟩
  · by_contra hws
    rw [Bool.not_eq_false] at hws
    have hws2 : c = ' ' ∨ c = '\t' ∨ c = '\n' ∨ c = '\r' := by
      simpa [isWsChar, or_assoc] using hws
    rcases hws2 with rfl | rfl | rfl | rfl <;> exact absurd h (by decide)
  all_goals
    rintro rfl
    exact absurd h (by decide)

theorem digitVal_natDigitChar {m : Nat} (h : m < 10) :
    digitVal (natDigitChar m) = m := by
  interval_cases m <;> decide

theorem isDigitChar_natDigitChar {m : Nat} (h : m < 10) :
    isDigitChar (natDigitChar m) = true := by
  interval_cases m <;> decide

theorem digitsToNat_append (ds : List Char) (c : Char) :
    digitsToNat (ds ++ [c]) = 10 * digitsToNat ds + digitVal c := by
  simp [digitsToNat, List.foldl_append]

theorem natDigitsAux_spec : ∀ fuel n, n < fuel →
    natDigitsAux fuel n ≠ [] ∧
      (∀ c ∈ natDigitsAux fuel n, isDigitChar c = true) ∧
      digitsToNat (natDigitsAux fuel n) = n := by
  intro fuel
  induction fuel with
  | zero => intro n h; omega
  | succ fuel ih =>
    intro n h
    by_cases h10 : n < 10
    · refine ⟨by simp [natDigitsAux, h10], ?_, ?_⟩
      · intro c hc
        simp [natDigitsAux, h10] at hc
        subst hc
        exact isDigitChar_natDigitChar h10
      · simp [natDigitsAux, h10, digitsToNat, digitVal_natDigitChar h10]
    · have hlt : n / 10 < fuel := by omega
      obtain ⟨hne, hdig, hval⟩ := ih (n / 10) hlt
      have hm : n % 10 < 10 := Nat.mod_lt _ (by omega)
      refine ⟨by simp [natDigitsAux, h10], ?_, ?_⟩
      · intro c hc
        simp only [natDigitsAux, if_neg h10, List.mem_append, List.mem_singleton] at hc
        rcases hc with hc | hc
        · exact hdig c hc
        · subst hc
          exact isDigitChar_natDigitChar hm
      · simp only [natDigitsAux, if_neg h10]
        rw [digitsToNat_append, hval, digitVal_natDigitChar hm]
        omega

theorem natDigitsAux_head_zero : ∀ fuel n, n < fuel → 1 ≤ n →
    ∀ ds, natDigitsAux fuel n = '0' :: ds → False := by
  intro fuel
  induction fuel with
  | zero => intro n h; omega
  | succ fuel ih =>
    intro n h h1 ds heq
    by_cases h10 : n < 10
    · simp only [natDigitsAux, if_pos h10] at heq
      have hc : natDigitChar n = '0' := (List.cons.injEq _ _ _ _).mp heq |>.1
      interval_cases n <;> exact absurd hc (by decide)
    · have hlt : n / 10 < fuel := by omega
      have hne := (natDigitsAux_spec fuel (n / 10) hlt).1
      simp only [natDigitsAux, if_neg h10] at heq
      cases haux : natDigitsAux fuel (n / 10) with
      | nil => exact hne haux
      | cons c cs =>
        rw [haux, List.cons_append] at heq
        have hc := (List.cons.injEq _ _ _ _).mp heq |>.1
        subst hc
        exact ih (n / 10) hlt (by omega) cs haux

theorem natDigits_ne_nil (n : Nat) : natDigits n ≠ [] :=
  (natDigitsAux_spec (n + 1) n (by omega)).1

theorem takeDigits_append (ds rest : List Char)
    (hds : ∀ c ∈ ds, isDigitChar c = true) (hrest : noDigitHead rest) :
    takeDigits (ds ++ rest) = (ds, rest) := by
  induction ds with
  | nil =>
    cases rest with
    | nil => rfl
    | cons c cs =>
      simp only [noDigitHead] at hrest
      simp [takeDigits, hrest]
  | cons d ds ih =>
    have hd := hds d (by simp)
    simp [takeDigits, hd, ih (fun c hc => hds c (by simp [hc]))]

theorem parseNumToken_natDigits (n : Nat) (rest : List Char) (hrest : noDigitHead rest) :
    parseNumToken (natDigits n ++ rest) = some (n, rest) := by
  obtain ⟨hne, hdig, hval⟩ := natDigitsAux_spec (n + 1) n (by omega)
  unfold parseNumToken
  rw [show natDigits n = natDigitsAux (n + 1) n from rfl,
    takeDigits_append _ _ hdig hrest]
  cases hnd : natDigitsAux (n + 1) n with
  | nil => exact absurd hnd hne
  | cons d ds =>
    show (if d = '0' ∧ ds ≠ [] then none
      else some (digitsToNat (d :: ds), rest)) = some (n, rest)
    by_cases hz : d = '0' ∧ ds ≠ []
    · exfalso
      obtain ⟨hz0, hzd⟩ := hz
      subst hz0
      rcases Nat.eq_zero_or_pos n with rfl | hpos
      · have h01 : natDigitsAux 1 0 = ['0'] := rfl
        have := h01.symm.trans hnd
        exact hzd ((List.cons.injEq _ _ _ _).mp this).2.symm
      · exact natDigitsAux_head_zero (n + 1) n (by omega) hpos ds hnd
    · rw [if_neg hz, ← hnd, hval]

theorem parseStringBodyAux_escape (s rest : List Char) :
    parseStringBodyAux false (escapeString s ++ '"' :: rest) = some (s, rest) := by
  induction s with
  | nil => rfl
  | cons c cs ih =>
    by_cases hq : c = '"'
    · subst hq
      simp [escapeString, escapeChar, parseStringBodyAux, unescapeChar, ih]
    · by_cases hb : c = '\\'
      · subst hb
        simp [escapeString, escapeChar, parseStringBodyAux, unescapeChar, ih]
      · simp [escapeString, escapeChar, parseStringBodyAux, hq, hb, ih]

theorem parseStringBody_escape (s rest : List Char) :
    parseStringBody (escapeString s ++ '"' :: rest) = some (s, rest) :=
  parseStringBodyAux_escape s rest

theorem intChars_ne_nil (n : Int) : intChars n ≠ [] := by
  unfold intChars
  split
  · simp
  · exact natDigits_ne_nil _

theorem noDigitHead_cons {c : Char} (h : isDigitChar c = false) (l : List Char) :
    noDigitHead (c :: l) := h

theorem natDigits_digit {n : Nat} {d : Char} {ds : List Char}
    (hnd : natDigits n = d :: ds) : isDigitChar d = true := by
  have hspec := (natDigitsAux_spec (n + 1) n (by omega)).2.1
  exact hspec d (by
    rw [show natDigitsAux (n + 1) n = natDigits n from rfl, hnd]
    simp)

theorem stringify_head (v : Json) :
    ∃ c t, stringifyVal v = c :: t ∧ isWsChar c = false ∧ c ≠ ']' := by
  cases v with
  | null => exact ⟨'n', _, rfl, by decide, by decide⟩
  | bool b =>
    cases b
    · exact ⟨'f', _, rfl, by decide, by decide⟩
    · exact ⟨'t', _, rfl, by decide, by decide⟩
  | num n =>
    by_cases hneg : n < 0
    · exact ⟨'-', natDigits n.natAbs, by simp [stringifyVal, intChars, hneg], by decide,
        by decide⟩
    · cases hnd : natDigits n.natAbs with
      | nil => exact absurd hnd (natDigits_ne_nil _)
      | cons d ds =>
        obtain ⟨hws, -, -, -, -, -, -, -, hnb, -, -, -⟩ := digit_facts (natDigits_digit hnd)
        exact ⟨d, ds, by simp [stringifyVal, intChars, hneg, hnd], hws, hnb⟩
  | str s => exact ⟨'"', _, rfl, by decide, by decide⟩
  | arr vs => exact ⟨'[', _, rfl, by decide, by decide⟩
  | obj ms => exact ⟨'{', _, rfl, by decide, by decide⟩

theorem jfuel_le_length : ∀ N : Nat,
    (∀ v : Json, sizeOf v ≤ N → jfuel v ≤ (stringifyVal v).length) ∧
    (∀ vs : List Json, sizeOf vs ≤ N → vs ≠ [] →
      jfuelItems vs ≤ (stringifyItems vs).length + 1) ∧
    (∀ ms : List (List Char × Json), sizeOf ms ≤ N → ms ≠ [] →
      jfuelMembers ms ≤ (stringifyMembers ms).length + 1) := by
  intro N
  induction N with
  | zero =>
    refine ⟨?_, ?_, ?_⟩
    · intro v hv
      exfalso
      cases v <;> simp at hv
    · intro vs hv hne
      exfalso
      cases vs with
      | nil => exact hne rfl
      | cons w ws => simp at hv
    · intro ms hv hne
      exfalso
      cases ms with
      | nil => exact hne rfl
      | cons m ms => simp at hv
  | succ N ih =>
    obtain ⟨ihv, ihi, ihm⟩ := ih
    refine ⟨?_, ?_, ?_⟩
    · intro v hv
      cases v with
      | null => simp [jfuel, stringifyVal]
      | bool b => cases b <;> simp [jfuel, stringifyVal]
      | num n =>
        have hne := intChars_ne_nil n
        have hlen : 1 ≤ (intChars n).length := by
          cases hic : intChars n with
          | nil => exact absurd hic hne
          | cons a l => simp
        simpa [jfuel, stringifyVal] using hlen
      | str s =>
        simp [jfuel, stringifyVal]
      | arr vs =>
        cases vs with
        | nil => simp [jfuel, jfuelItems, stringifyVal, stringifyItems]
        | cons w ws =>
          have h1 : sizeOf (w :: ws) ≤ N := by
            simp at hv
            simp
            omega
          have h2 := ihi (w :: ws) h1 (by simp)
          simp only [jfuel, stringifyVal, List.length_cons, List.length_append,
            List.length_singleton]
          omega
      | obj ms =>
        cases ms with
        | nil => simp [jfuel, jfuelMembers, stringifyVal, stringifyMembers]
        | cons m ms =>
          have h1 : sizeOf (m :: ms) ≤ N := by
            simp at hv
            simp
            omega
          have h2 := ihm (m :: ms) h1 (by simp)
          simp only [jfuel, stringifyVal, List.length_cons, List.length_append,
            List.length_singleton]
          omega
    · intro vs hv hne
      cases vs with
      | nil => exact absurd rfl hne
      | cons w ws =>
        have hw : sizeOf w ≤ N := by simp at hv; omega
        have h1 := ihv w hw
        cases ws with
        | nil =>
          simp only [jfuelItems, stringifyItems]
          omega
        | cons u us =>
          have hus : sizeOf (u :: us) ≤ N := by
            simp at hv
            simp
            omega
          have h2 := ihi (u :: us) hus (by simp)
          have h3 : jfuelItems (u :: us) = 1 + jfuel u + jfuelItems us := by
            simp [jfuelItems]
          simp only [jfuelItems, stringifyItems, List.length_append, List.length_cons]
          omega
    · intro ms hv hne
      cases ms with
      | nil => exact absurd rfl hne
      | cons m ms =>
        obtain ⟨k, w⟩ := m
        have hw : sizeOf w ≤ N := by simp at hv; omega
        have h1 := ihv w hw
        cases ms with
        | nil =>
          simp only [jfuelMembers, stringifyMembers, List.length_cons, List.length_append]
          omega
        | cons m2 ms2 =>
          have hms : sizeOf (m2 :: ms2) ≤ N := by
            simp at hv
            simp
            omega
          have h2 := ihm (m2 :: ms2) hms (by simp)
          have h3 : jfuelMembers (m2 :: ms2) = 1 + jfuel m2.2 + jfuelMembers ms2 := by
            obtain ⟨k2, w2⟩ := m2
            simp [jfuelMembers]
          simp only [jfuelMembers, stringifyMembers, List.length_cons, List.length_append]
          omega

theorem parse_stringify_aux : ∀ fuel : Nat,
    (∀ v rest, jfuel v ≤ fuel → noDigitHead rest →
      parseVal fuel (stringifyVal v ++ rest) = some (v, rest)) ∧
    (∀ vs rest, vs ≠ [] → jfuelItems vs ≤ fuel →
      parseItems fuel (stringifyItems vs ++ ']' :: rest) = some (vs, rest)) ∧
    (∀ ms rest, ms ≠ [] → jfuelMembers ms ≤ fuel →
      parseMembers fuel (stringifyMembers ms ++ '}' :: rest) = some (ms, rest)) := by
  intro fuel
  induction fuel with
  | zero =>
    refine ⟨?_, ?_, ?_⟩
    · intro v rest hf _
      exfalso
      cases v <;> simp [jfuel] at hf
    · intro vs rest hne hf
      exfalso
      cases vs with
      | nil => exact hne rfl
      | cons w ws => simp [jfuelItems] at hf
    · intro ms rest hne hf
      exfalso
      cases ms with
      | nil => exact hne rfl
      | cons m ms =>
        obtain ⟨k, w⟩ := m
        simp [jfuelMembers] at hf
  | succ fuel ih =>
    obtain ⟨ihv, ihi, ihm⟩ := ih
    refine ⟨?_, ?_, ?_⟩
    · intro v rest hf hrest
      cases v with
      | null => rfl
      | bool b => cases b <;> rfl
      | num n =>
        by_cases hneg : n < 0
        · have h1 : stringifyVal (Json.num n) ++ rest =
              '-' :: (natDigits n.natAbs ++ rest) := by
            simp [stringifyVal, intChars, hneg]
          rw [h1]
          show (match parseNumToken (natDigits n.natAbs ++ rest) with
            | some (m, r) => some (Json.num (-(m : Int)), r)
            | none => none) = some (Json.num n, rest)
          rw [parseNumToken_natDigits _ _ hrest]
          simp only [Option.some.injEq, Prod.mk.injEq, Json.num.injEq]
          exact ⟨by omega, trivial⟩
        · have h1 : stringifyVal (Json.num n) ++ rest = natDigits n.natAbs ++ rest := by
            simp [stringifyVal, intChars, hneg]
          rw [h1]
          cases hnd : natDigits n.natAbs with
          | nil => exact absurd hnd (natDigits_ne_nil _)
          | cons d ds =>
            have hdig := natDigits_digit hnd
            obtain ⟨hws, -, -, -, -, -, -, -, -, -, -, -⟩ := digit_facts hdig
            rw [show (d :: ds) ++ rest = d :: (ds ++ rest) from rfl]
            simp only [parseVal, skipWs_cons d _ hws]
            rw [if_pos hdig,
              show d :: (ds ++ rest) = (d :: ds) ++ rest from rfl, ← hnd,
              parseNumToken_natDigits _ _ hrest]
            simp only [Option.some.injEq, Prod.mk.injEq, Json.num.injEq]
            exact ⟨by omega, trivial⟩
      | str s =>
        have h1 : stringifyVal (Json.str s) ++ rest =
            '"' :: (escapeString s ++ '"' :: rest) := by
          simp [stringifyVal]
        rw [h1]
        show (match parseStringBody (escapeString s ++ '"' :: rest) with
          | some (t, r) => some (Json.str t, r)
          | none => none) = some (Json.str s, rest)
        rw [parseStringBody_escape]
      | arr vs =>
        cases vs with
        | nil => rfl
        | cons w ws =>
          obtain ⟨c, t, hct, hws, hnb⟩ := stringify_head w
          have hfi : jfuelItems (w :: ws) ≤ fuel := by
            simp only [jfuel] at hf
            omega
          have hpi := ihi (w :: ws) rest (by simp) hfi
          have h1 : stringifyVal (Json.arr (w :: ws)) ++ rest =
              '[' :: (stringifyItems (w :: ws) ++ ']' :: rest) := by
            simp [stringifyVal]
          rw [h1]
          show (match skipWs (stringifyItems (w :: ws) ++ ']' :: rest) with
            | [] => none
            | c2 :: r2 =>
              if c2 = ']' then some (Json.arr [], r2)
              else
                match parseItems fuel (c2 :: r2) with
                | some (vs2, r3) => some (Json.arr vs2, r3)
                | none => none) = some (Json.arr (w :: ws), rest)
          have hx : ∃ X, stringifyItems (w :: ws) = stringifyVal w ++ X := by
            cases ws with
            | nil => exact ⟨[], by simp [stringifyItems]⟩
            | cons u us => exact ⟨',' :: stringifyItems (u :: us), rfl⟩
          obtain ⟨X, hX⟩ := hx
          have h2 : stringifyItems (w :: ws) ++ ']' :: rest =
              c :: (t ++ (X ++ ']' :: rest)) := by
            rw [hX, hct]
            simp
          rw [h2, skipWs_cons _ _ hws]
          show (if c = ']' then some (Json.arr [], t ++ (X ++ ']' :: rest))
            else
              match parseItems fuel (c :: (t ++ (X ++ ']' :: rest))) with
              | some (vs2, r3) => some (Json.arr vs2, r3)
              | none => none) = some (Json.arr (w :: ws), rest)
          rw [if_neg hnb,
            show c :: (t ++ (X ++ ']' :: rest)) =
              stringifyItems (w :: ws) ++ ']' :: rest from h2.symm,
            hpi]
      | obj ms =>
        cases ms with
        | nil => rfl
        | cons m ms' =>
          obtain ⟨k, w⟩ := m
          have hfm : jfuelMembers ((k, w) :: ms') ≤ fuel := by
            simp only [jfuel] at hf
            omega
          have hpm := ihm ((k, w) :: ms') rest (by simp) hfm
          have h1 : stringifyVal (Json.obj ((k, w) :: ms')) ++ rest =
              '{' :: (stringifyMembers ((k, w) :: ms') ++ '}' :: rest) := by
            simp [stringifyVal]
          rw [h1]
          show (match skipWs (stringifyMembers ((k, w) :: ms') ++ '}' :: rest) with
            | [] => none
            | c2 :: r2 =>
              if c2 = '}' then some (Json.obj [], r2)
              else
                match parseMembers fuel (c2 :: r2) with
                | some (ms2, r3) => some (Json.obj ms2, r3)
                | none => none) = some (Json.obj ((k, w) :: ms'), rest)
          have hx : ∃ Y, stringifyMembers ((k, w) :: ms') = '"' :: Y := by
            cases ms' with
            | nil => exact ⟨_, rfl⟩
            | cons m2 ms2 => exact ⟨_, rfl⟩
          obtain ⟨Y, hY⟩ := hx
          have h2 : stringifyMembers ((k, w) :: ms') ++ '}' :: rest =
              '"' :: (Y ++ '}' :: rest) := by
            rw [hY]
            rfl
          rw [h2, skipWs_cons _ _ (by decide)]
          show (if ('"' : Char) = '}' then some (Json.obj [], Y ++ '}' :: rest)
            else
              match parseMembers fuel ('"' :: (Y ++ '}' :: rest)) with
              | some (ms2, r3) => some (Json.obj ms2, r3)
              | none => none) = some (Json.obj ((k, w) :: ms'), rest)
          rw [if_neg (by decide),
            show ('"' : Char) :: (Y ++ '}' :: rest) =
              stringifyMembers ((k, w) :: ms') ++ '}' :: rest from h2.symm,
            hpm]
    · intro vs rest hne hf
      cases vs with
      | nil => exact absurd rfl hne
      | cons w ws =>
        have hfS : 1 + jfuel w + jfuelItems ws ≤ fuel + 1 := by
          simpa [jfuelItems] using hf
        have hfw : jfuel w ≤ fuel := by omega
        cases ws with
        | nil =>
          have hv := ihv w (']' :: rest) hfw (noDigitHead_cons (by decide) _)
          rw [show stringifyItems [w] = stringifyVal w from rfl]
          show (match parseVal fuel (stringifyVal w ++ ']' :: rest) with
            | some (v, r) =>
              match skipWs r with
              | [] => none
              | c :: r2 =>
                if c = ']' then some ([v], r2)
                else if c = ',' then
                  match parseItems fuel r2 with
                  | some (vs2, r3) => some (v :: vs2, r3)
                  | none => none
                else none
            | none => none) = some ([w], rest)
          rw [hv]
          rfl
        | cons u us =>
          have hfu : jfuelItems (u :: us) ≤ fuel := by omega
          have hv := ihv w (',' :: (stringifyItems (u :: us) ++ ']' :: rest)) hfw
            (noDigitHead_cons (by decide) _)
          have hitems := ihi (u :: us) rest (by simp) hfu
          have h1 : stringifyItems (w :: u :: us) ++ ']' :: rest =
              stringifyVal w ++ (',' :: (stringifyItems (u :: us) ++ ']' :: rest)) := by
            rw [show stringifyItems (w :: u :: us) =
              stringifyVal w ++ ',' :: stringifyItems (u :: us) from rfl]
            simp
          rw [h1]
          show (match parseVal fuel (stringifyVal w ++
              (',' :: (stringifyItems (u :: us) ++ ']' :: rest))) with
            | some (v, r) =>
              match skipWs r with
              | [] => none
              | c :: r2 =>
                if c = ']' then some ([v], r2)
                else if c = ',' then
                  match parseItems fuel r2 with
                  | some (vs2, r3) => some (v :: vs2, r3)
                  | none => none
                else none
            | none => none) = some (w :: u :: us, rest)
          rw [hv]
          show (match parseItems fuel (stringifyItems (u :: us) ++ ']' :: rest) with
            | some (vs2, r3) => some (w :: vs2, r3)
            | none => none) = some (w :: u :: us, rest)
          rw [hitems]
    · intro ms rest hne hf
      cases ms with
      | nil => exact absurd rfl hne
      | cons m ms' =>
        obtain ⟨k, w⟩ := m
        have hfS : 1 + jfuel w + jfuelMembers ms' ≤ fuel + 1 := by
          simpa [jfuelMembers] using hf
        have hfw : jfuel w ≤ fuel := by omega
        cases ms' with
        | nil =>
          have hv := ihv w ('}' :: rest) hfw (noDigitHead_cons (by decide) _)
          have h1 : stringifyMembers [(k, w)] ++ '}' :: rest =
              '"' :: (escapeString k ++ '"' :: ':' :: (stringifyVal w ++ '}' :: rest)) := by
            rw [show stringifyMembers [(k, w)] =
              '"' :: (escapeString k ++ '"' :: ':' :: stringifyVal w) from rfl]
            simp
          rw [h1]
          show (match parseStringBody (escapeString k ++
              '"' :: ':' :: (stringifyVal w ++ '}' :: rest)) with
            | some (k2, r) =>
              match skipWs r with
              | [] => none
              | c2 :: r2 =>
                if c2 = ':' then
                  match parseVal fuel r2 with
                  | some (v, r3) =>
                    match skipWs r3 with
                    | [] => none
                    | c3 :: r4 =>
                      if c3 = '}' then some ([(k2, v)], r4)
                      else if c3 = ',' then
                        match parseMembers fuel r4 with
                        | some (ms2, r5) => some ((k2, v) :: ms2, r5)
                        | none => none
                      else none
                  | none => none
                else none
            | none => none) = some ([(k, w)], rest)
          rw [parseStringBody_escape k (':' :: (stringifyVal w ++ '}' :: rest))]
          show (match parseVal fuel (stringifyVal w ++ '}' :: rest) with
            | some (v, r3) =>
              match skipWs r3 with
              | [] => none
              | c3 :: r4 =>
                if c3 = '}' then some ([(k, v)], r4)
                else if c3 = ',' then
                  match parseMembers fuel r4 with
                  | some (ms2, r5) => some ((k, v) :: ms2, r5)
                  | none => none
                else none
            | none => none) = some ([(k, w)], rest)
          rw [hv]
          rfl
        | cons m2 ms2 =>
          have hfm : jfuelMembers (m2 :: ms2) ≤ fuel := by omega
          have hv := ihv w (',' :: (stringifyMembers (m2 :: ms2) ++ '}' :: rest)) hfw
            (noDigitHead_cons (by decide) _)
          have hmem := ihm (m2 :: ms2) rest (by simp) hfm
          have h1 : stringifyMembers ((k, w) :: m2 :: ms2) ++ '}' :: rest =
              '"' :: (escapeString k ++ '"' :: ':' :: (stringifyVal w ++
                (',' :: (stringifyMembers (m2 :: ms2) ++ '}' :: rest)))) := by
            rw [show stringifyMembers ((k, w) :: m2 :: ms2) =
              ('"' :: (escapeString k ++ '"' :: ':' :: stringifyVal w)) ++
                ',' :: stringifyMembers (m2 :: ms2) from rfl]
            simp
          rw [h1]
          show (match parseStringBody (escapeString k ++ '"' :: ':' :: (stringifyVal w ++
              (',' :: (stringifyMembers (m2 :: ms2) ++ '}' :: rest)))) with
            | some (k2, r) =>
              match skipWs r with
              | [] => none
              | c2 :: r2 =>
                if c2 = ':' then
                  match parseVal fuel r2 with
                  | some (v, r3) =>
                    match skipWs r3 with
                    | [] => none
                    | c3 :: r4 =>
                      if c3 = '}' then some ([(k2, v)], r4)
                      else if c3 = ',' then
                        match parseMembers fuel r4 with
                        | some (ms3, r5) => some ((k2, v) :: ms3, r5)
                        | none => none
                      else none
                  | none => none
                else none
            | none => none) = some ((k, w) :: m2 :: ms2, rest)
          rw [parseStringBody_escape k (':' :: (stringifyVal w ++
            (',' :: (stringifyMembers (m2 :: ms2) ++ '}' :: rest))))]
          show (match parseVal fuel (stringifyVal w ++
              (',' :: (stringifyMembers (m2 :: ms2) ++ '}' :: rest))) with
            | some (v, r3) =>
              match skipWs r3 with
              | [] => none
              | c3 :: r4 =>
                if c3 = '}' then some ([(k, v)], r4)
                else if c3 = ',' then
                  match parseMembers fuel r4 with
                  | some (ms3, r5) => some ((k, v) :: ms3, r5)
                  | none => none
                else none
            | none => none) = some ((k, w) :: m2 :: ms2, rest)
          rw [hv]
          show (match parseMembers fuel (stringifyMembers (m2 :: ms2) ++ '}' :: rest) with
            | some (ms3, r5) => some ((k, w) :: ms3, r5)
            | none => none) = some ((k, w) :: m2 :: ms2, rest)
          rw [hmem]

theorem jsonParse_jsonStringify (v : Json) : jsonParse (jsonStringify v) = some v := by
  have hb : jfuel v ≤ (stringifyVal v).length := (jfuel_le_length (sizeOf v)).1 v le_rfl
  have h := (parse_stringify_aux ((stringifyVal v).length + 1)).1 v [] (by omega) trivial
  rw [List.append_nil] at h
  unfold jsonParse
  rw [show (jsonStringify v).data = stringifyVal v from rfl, h]
  rfl

/-! ## Claim theorems: JSON canonicalization in saveItem -/

/-- C1: the value transformation of `saveItem` canonicalizes every string
that parses to a JSON object or array: the value sent to the adapter is
the whitespace-free re-serialization of the parse result, and parsing it
back yields the same JSON value (semantic identity); every string that is
not well-formed JSON is passed through byte-identically. -/
theorem applyEdit_json_roundtrip (s : String) :
    (∀ v, jsonParse s = some v → isStructuredJson v = true →
      saveItemValue s = jsonStringify v ∧ jsonParse (saveItemValue s) = some v) ∧
    (jsonParse s = none → saveItemValue s = s) := by
  constructor
  · intro v hv hs
    have hj : isJson s = true := by simp [isJson, hv, hs]
    refine ⟨?_, ?_⟩
    · simp [saveItemValue, hj, hv]
    · simp [saveItemValue, hj, hv, jsonParse_jsonStringify]
  · intro h
    simp [saveItemValue, isJson, h]

theorem applyEdit_json_roundtrip_witness :
    saveItemValue "[ 1 , true ]" = "[1,true]" ∧
    jsonParse (saveItemValue "[ 1 , true ]") =
      some (Json.arr [Json.num 1, Json.bool true]) ∧
    saveItemValue "not json" = "not json" := by
  refine ⟨?_, ?_, ?_⟩
  · exact ((applyEdit_json_roundtrip "[ 1 , true ]").1
      (Json.arr [Json.num 1, Json.bool true]) rfl rfl).1
  · exact ((applyEdit_json_roundtrip "[ 1 , true ]").1
      (Json.arr [Json.num 1, Json.bool true]) rfl rfl).2
  · exact (applyEdit_json_roundtrip "not json").2 rfl

/-- C9: a value string that parses as a JSON scalar (number, boolean,
null, or string) is classified as plain by `isJson` — which requires a
non-null object — so `saveItem` does not re-serialize it and the value
sent to the adapter is byte-identical to the submitted string. -/
theorem saveItem_scalar_passthrough (s : String) (v : Json)
    (hv : jsonParse s = some v) (hs : isStructuredJson v = false) :
    saveItemValue s = s := by
  simp [saveItemValue, isJson, hv, hs]

theorem saveItem_scalar_passthrough_witness :
    saveItemValue "123" = "123" ∧ saveItemValue "true" = "true" ∧
    saveItemValue "null" = "null" ∧ saveItemValue "\"hi\"" = "\"hi\"" := by
  refine ⟨?_, ?_, ?_, ?_⟩
  · exact saveItem_scalar_passthrough "123" (Json.num 123) rfl rfl
  · exact saveItem_scalar_passthrough "true" (Json.bool true) rfl rfl
  · exact saveItem_scalar_passthrough "null" Json.null rfl rfl
  · exact saveItem_scalar_passthrough "\"hi\"" (Json.str ['h', 'i']) rfl rfl

end StorageInspector
